import Mathlib

/-!
# Verification of the poast-relay OAuth callback-rendezvous subsystem

Shallow embedding of the OAuth relay code:
  * `app/oauth/models.py`  — `MessageType`, `SocketMessage` (wire protocol model)
  * `app/routes/oauth.py`  — `extract_code` (payload-to-code extraction)
  * `app/oauth/coordinator.py` — `OAuthCoordinator` (registration/delivery state machine)
  * `app/oauth/client.py`  — `wait_for_code` (client-side blocking wait)

Python dynamic values that flow through these functions (strings, lists,
dicts) are embedded as the inductive `PyVal`; Python dicts are embedded as
insertion-ordered association lists with overwrite-on-collision semantics,
matching CPython dict behaviour for the operations the source uses.
-/

/-- A Python value as it appears in OAuth callback payloads and wire
messages: a string, a list, or a string-keyed dict. -/
inductive PyVal : Type where
  | str (s : String)
  | list (elems : List PyVal)
  | dict (fields : List (String × PyVal))

/-- A Python dict embedded as an insertion-ordered association list. -/
abbrev PyDict (α : Type) : Type := List (String × α)

/-- `d[k] = v` on a Python dict: overwrite the value if the key is present
(keeping its position), else append the new pair. -/
def dictSet {α : Type} (d : PyDict α) (k : String) (v : α) : PyDict α :=
  if d.any (fun p => p.1 == k) then
    d.map (fun p => if p.1 == k then (p.1, v) else p)
  else d ++ [(k, v)]

/-- `d.get(k)` on a Python dict: the value stored at `k`, if any. -/
def dictGet? {α : Type} (d : PyDict α) (k : String) : Option α :=
  (d.find? (fun p => p.1 == k)).map (fun p => p.2)

/-- `del d[k]` on a Python dict: remove the pair stored at `k`. -/
def dictDel {α : Type} (d : PyDict α) (k : String) : PyDict α :=
  d.filter (fun p => !(p.1 == k))

/-- Python truthiness for the embedded values: empty string, empty list and
empty dict are falsy, everything else is truthy. -/
def PyVal.truthy : PyVal → Bool
  | .str s => !(s == "")
  | .list l => !l.isEmpty
  | .dict d => !d.isEmpty

mutual

/-- Python `str(...)` coercion on the embedded values (`repr`-style
rendering for containers, as CPython does when stringifying them). -/
def PyVal.pyStr : PyVal → String
  | .str s => s
  | .list l => "[" ++ String.intercalate ", " (pyReprList l) ++ "]"
  | .dict d => "\x7b" ++ String.intercalate ", " (pyReprFields d) ++ "\x7d"

/-- Python `repr(...)` of a value (strings get quoted). -/
def PyVal.pyRepr : PyVal → String
  | .str s => "'" ++ s ++ "'"
  | .list l => "[" ++ String.intercalate ", " (pyReprList l) ++ "]"
  | .dict d => "\x7b" ++ String.intercalate ", " (pyReprFields d) ++ "\x7d"

/-- `repr` of each element of a Python list. -/
def pyReprList : List PyVal → List String
  | [] => []
  | v :: vs => v.pyRepr :: pyReprList vs

/-- `repr` of each `key: value` pair of a Python dict. -/
def pyReprFields : List (String × PyVal) → List String
  | [] => []
  | (k, v) :: fs => ("'" ++ k ++ "': " ++ v.pyRepr) :: pyReprFields fs

end

/-! ## `extract_code` (`app/routes/oauth.py`, lines 130-150) -/

/-- Python `str.lower()` on the ASCII candidate keys and payload keys,
written by structural recursion (so the kernel can evaluate concrete
payloads; `String.toLower` itself is defined by well-founded recursion). -/
def pyLower (s : String) : String := String.mk (s.data.map Char.toLower)

/-- The loop body of `extract_code`: scan the candidate keys in order over
the pre-built lower-cased view `lower_data`. -/
def extractLoop (lower_data : PyDict PyVal) : List String → Option String
  | [] => none
  | candidate :: rest =>
    match dictGet? lower_data (pyLower candidate) with
    | none => extractLoop lower_data rest
    | some value =>
      match value with
      | .list (x :: _) => some x.pyStr
      | v => if v.truthy then some v.pyStr else none

/-- `extract_code(data, code_keys)` from `app/routes/oauth.py`:
build `lower_data = {k.lower(): v for k, v in data.items()}`, then for each
candidate key in order, if its lower-casing is a key of `lower_data`,
return `str(value[0])` for a non-empty list value, else
`str(value) if value else None`; if no candidate matches return `None`. -/
def extract_code (data : PyDict PyVal) (code_keys : List String) : Option String :=
  extractLoop (data.foldl (fun acc p => dictSet acc (pyLower p.1) p.2) []) code_keys

/-- The last value in `data` whose lower-cased key equals `k` (with `k`
already lower-cased): the value a lower-cased-key view of `data` holds at
`k` when, on collision, the later key overwrites the earlier. -/
def lookupLowerLast (data : PyDict PyVal) (k : String) : Option PyVal :=
  (data.reverse.find? (fun p => (pyLower p.1) == k)).map (fun p => p.2)

/-- The spec's reference extraction algorithm, written from its words:
build a lower-cased-key view of the payload where on collision the later
key's value overwrites the earlier; stop at the first candidate key whose
lower-cased name is a key of the view; a non-empty list value yields its
first element coerced to string, an empty list or falsy scalar yields
absent, a truthy scalar yields itself coerced to string; no candidate key
matching yields absent. -/
def extractSpec (data : PyDict PyVal) (code_keys : List String) : Option String :=
  match code_keys.find? (fun c => (lookupLowerLast data (pyLower c)).isSome) with
  | none => none
  | some c =>
    match lookupLowerLast data (pyLower c) with
    | none => none
    | some (.list []) => none
    | some (.list (x :: _)) => some x.pyStr
    | some v => if v.truthy then some v.pyStr else none

/-! ### Dict lemmas -/

theorem overwrite_key_pred {α : Type} (k k' : String) (v : α) :
    ((fun p : String × α => p.1 == k') ∘ fun p => if p.1 == k then (p.1, v) else p)
      = fun p : String × α => p.1 == k' := by
  funext p
  show ((if p.1 == k then (p.1, v) else p).1 == k') = (p.1 == k')
  split <;> rfl

theorem dictGet?_set {α : Type} (d : PyDict α) (k k' : String) (v : α) :
    dictGet? (dictSet d k v) k' = if k' = k then some v else dictGet? d k' := by
  unfold dictSet dictGet?
  by_cases ha : d.any (fun p => p.1 == k)
  · simp only [ha, if_true, List.find?_map, overwrite_key_pred]
    cases hf : List.find? (fun p : String × α => p.1 == k') d with
    | none =>
      by_cases hk : k' = k
      · subst hk
        obtain ⟨p, hp, hpk⟩ := List.any_eq_true.mp ha
        rw [List.find?_eq_none] at hf
        exact absurd hpk (hf p hp)
      · simp [hk]
    | some p₀ =>
      have hpk₀ : p₀.1 = k' := by simpa using List.find?_some hf
      by_cases hk : k' = k
      · subst hk
        simp [hpk₀]
      · simp [hpk₀, hk]
  · rw [if_neg ha, List.find?_append]
    have hnone : List.find? (fun p : String × α => p.1 == k) d = none := by
      rw [List.find?_eq_none]
      intro p hp hpk
      exact absurd (List.any_eq_true.mpr ⟨p, hp, hpk⟩) ha
    by_cases hk : k' = k
    · subst hk
      have hcons : List.find? (fun p : String × α => p.1 == k') [(k', v)] = some (k', v) :=
        List.find?_cons_of_pos _ (by simp)
      rw [hnone, hcons]
      simp
    · have hkk' : ((k, v).1 == k') = false :=
        beq_eq_false_iff_ne.mpr (fun hc => hk hc.symm)
      have hsingle : List.find? (fun p : String × α => p.1 == k') [(k, v)] = none := by
        rw [List.find?_cons_of_neg _ (by simp [hkk'])]
        rfl
      rw [hsingle, Option.or_none]
      simp [hk]

theorem dictGet?_del {α : Type} (d : PyDict α) (k k' : String) :
    dictGet? (dictDel d k) k' = if k' = k then none else dictGet? d k' := by
  unfold dictDel dictGet?
  by_cases hk : k' = k
  · subst hk
    have : List.find? (fun p : String × α => p.1 == k')
        (d.filter fun p => !(p.1 == k')) = none := by
      rw [List.find?_eq_none]
      intro p hp
      have := (List.mem_filter.mp hp).2
      simpa using this
    simp [this]
  · simp only [if_neg hk]
    induction d with
    | nil => rfl
    | cons p rest ih =>
      by_cases hp : p.1 == k
      · have hk1 : p.1 = k := by simpa using hp
        have hp' : (p.1 == k') = false := by
          rw [hk1]
          exact beq_eq_false_iff_ne.mpr (fun hc => hk hc.symm)
        rw [List.filter_cons_of_neg (by simp [hp]),
          List.find?_cons_of_neg _ (by simp [hp'])]
        exact ih
      · rw [List.filter_cons_of_pos (by simpa using hp)]
        cases hpk' : p.1 == k'
        · rw [List.find?_cons_of_neg _ (by simp [hpk']),
            List.find?_cons_of_neg _ (by simp [hpk'])]
          exact ih
        · rw [@List.find?_cons_of_pos _ (fun q : String × α => q.1 == k') p
              (List.filter (fun q => !(q.1 == k)) rest) hpk',
            @List.find?_cons_of_pos _ (fun q : String × α => q.1 == k') p rest hpk']

theorem mem_of_dictGet?_eq_some {α : Type} {d : PyDict α} {k : String} {v : α}
    (h : dictGet? d k = some v) : (k, v) ∈ d := by
  unfold dictGet? at h
  cases hf : d.find? (fun p => p.1 == k) with
  | none => simp [hf] at h
  | some p =>
    simp only [hf, Option.map_some] at h
    have hmem : p ∈ d := List.mem_of_find?_eq_some hf
    have hk : p.1 = k := by simpa using List.find?_some hf
    have : p = (k, v) := by
      cases p with
      | mk a b => simp_all
    rwa [this] at hmem

theorem option_map_or {α β : Type} (f : α → β) (x y : Option α) :
    Option.map f (x.or y) = (Option.map f x).or (Option.map f y) := by
  cases x <;> rfl

theorem lookupLowerLast_cons (p : String × PyVal) (rest : PyDict PyVal) (k : String) :
    lookupLowerLast (p :: rest) k
      = (lookupLowerLast rest k).or
          (if pyLower p.1 == k then some p.2 else none) := by
  unfold lookupLowerLast
  rw [List.reverse_cons, List.find?_append, option_map_or]
  cases hpk : pyLower p.1 == k
  · have : List.find? (fun q : String × PyVal => pyLower q.1 == k) [p] = none := by
      rw [List.find?_cons_of_neg _ (by simp [hpk])]
      rfl
    rw [this]
    rfl
  · have : List.find? (fun q : String × PyVal => pyLower q.1 == k) [p] = some p :=
      @List.find?_cons_of_pos _ (fun q : String × PyVal => pyLower q.1 == k) p [] hpk
    rw [this]
    rfl

theorem dictGet?_lowerFold (data : PyDict PyVal) (acc : PyDict PyVal) (k : String) :
    dictGet? (data.foldl (fun acc p => dictSet acc (pyLower p.1) p.2) acc) k
      = (lookupLowerLast data k).or (dictGet? acc k) := by
  induction data generalizing acc with
  | nil => simp [lookupLowerLast]
  | cons p rest ih =>
    rw [List.foldl_cons, ih, lookupLowerLast_cons, dictGet?_set]
    by_cases hkp : k = pyLower p.1
    · have hpk : (pyLower p.1 == k) = true := by simp [hkp]
      rw [if_pos hkp, hpk]
      cases lookupLowerLast rest k <;> rfl
    · have hpk : (pyLower p.1 == k) = false :=
        beq_eq_false_iff_ne.mpr (fun hc => hkp hc.symm)
      rw [if_neg hkp, hpk]
      cases lookupLowerLast rest k <;> rfl

theorem extract_code_eq_extractSpec (data : PyDict PyVal) (keys : List String) :
    extract_code data keys = extractSpec data keys := by
  unfold extract_code extractSpec
  have hget : ∀ c : String,
      dictGet? (data.foldl (fun acc p => dictSet acc (pyLower p.1) p.2) []) c
        = lookupLowerLast data c := by
    intro c
    rw [dictGet?_lowerFold]
    cases lookupLowerLast data c <;> rfl
  induction keys with
  | nil => rfl
  | cons c rest ih =>
    simp only [extractLoop, hget]
    cases hc : lookupLowerLast data (pyLower c) with
    | none =>
      rw [List.find?_cons_of_neg _ (by simp [hc])]
      simpa only [extractLoop, hget] using ih
    | some v =>
      rw [@List.find?_cons_of_pos _
        (fun c : String => (lookupLowerLast data (pyLower c)).isSome) c rest (by simp [hc])]
      cases v with
      | str s => simp [hc]
      | list l => cases l <;> simp [hc, PyVal.truthy]
      | dict d => simp [hc]

/-! ## Protocol model (`app/oauth/models.py`) -/

/-- `MessageType` from `app/oauth/models.py`: the protocol message tags. -/
inductive MessageType : Type where
  | REGISTER
  | DELIVER
  | ERROR
  | UNREGISTER
deriving DecidableEq

/-- The string value of a tag (`MessageType` is a `str` enum). -/
def MessageType.value : MessageType → String
  | .REGISTER => "REGISTER"
  | .DELIVER => "DELIVER"
  | .ERROR => "ERROR"
  | .UNREGISTER => "UNREGISTER"

/-- The enum constructor `MessageType(s)`: the member whose value is `s`,
if any (CPython raises `ValueError` otherwise). -/
def MessageType.fromValue? (s : String) : Option MessageType :=
  if s == "REGISTER" then some .REGISTER
  else if s == "DELIVER" then some .DELIVER
  else if s == "ERROR" then some .ERROR
  else if s == "UNREGISTER" then some .UNREGISTER
  else none

/-- The exceptions the decode path can raise. The first four are the
CPython exceptions `SocketMessage.from_json` actually produces
(`json.JSONDecodeError` is a `ValueError` subclass). `protocolError`
stands for the `ProtocolError` type named by the spec's error taxonomy:
no source file of the repository defines such a class, so no embedded
function ever produces this constructor. -/
inductive PyError : Type where
  | valueError (msg : String)
  | keyError (msg : String)
  | typeError (msg : String)
  | jsonDecodeError (msg : String)
  | protocolError (msg : String)
deriving DecidableEq

/-- Whether an exception is the spec's `ProtocolError`. -/
def PyError.isProtocolError : PyError → Bool
  | .protocolError _ => true
  | _ => false

/-- `SocketMessage` from `app/oauth/models.py`: the wire message dataclass.
All optional fields default to `None`. -/
structure SocketMessage : Type where
  type : MessageType
  state : Option String := none
  code : Option String := none
  raw : Option (PyDict PyVal) := none
  error : Option String := none

/-- The JSON record built by `SocketMessage.to_json` before serialization:
`{k: v for k, v in asdict(self).items() if v is not None}` in dataclass
field order (type, state, code, raw, error) with `data["type"]` replaced by
the tag's string value. Absent optional fields are omitted. -/
def SocketMessage.to_jsonObj (m : SocketMessage) : PyDict PyVal :=
  ("type", PyVal.str m.type.value)
    :: ((match m.state with | some s => [("state", PyVal.str s)] | none => [])
      ++ (match m.code with | some c => [("code", PyVal.str c)] | none => [])
      ++ (match m.raw with | some r => [("raw", PyVal.dict r)] | none => [])
      ++ (match m.error with | some e => [("error", PyVal.str e)] | none => []))

/-- `cls(type=msg_type, **data)`: assign each remaining record field to the
dataclass field of the same name; an unknown name raises `TypeError`
(unexpected keyword argument). CPython's dataclass constructor performs no
runtime type check on the values; the shape checks here record the
dataclass's declared `Optional[str]` / `Optional[dict]` field types, and no
claim depends on ill-typed field values. -/
def applyKwargs : SocketMessage → PyDict PyVal → Except PyError SocketMessage
  | m, [] => .ok m
  | m, (k, v) :: rest =>
    if k == "state" then
      match v with
      | .str s => applyKwargs { m with state := some s } rest
      | _ => .error (.typeError "state must be a string")
    else if k == "code" then
      match v with
      | .str s => applyKwargs { m with code := some s } rest
      | _ => .error (.typeError "code must be a string")
    else if k == "raw" then
      match v with
      | .dict d => applyKwargs { m with raw := some d } rest
      | _ => .error (.typeError "raw must be a dict")
    else if k == "error" then
      match v with
      | .str s => applyKwargs { m with error := some s } rest
      | _ => .error (.typeError "error must be a string")
    else .error (.typeError ("unexpected keyword argument '" ++ k ++ "'"))

/-- `SocketMessage.from_json` after `json.loads`: pop the `"type"` key
(`KeyError` if missing), convert it with the `MessageType` constructor
(`ValueError` on an unknown tag), and build the dataclass from the
remaining fields. The `json.loads(json_str.strip())` framing of the
source is the standard library's transport of the record between text and
structure; the record itself is the embedding's input. -/
def SocketMessage.from_jsonObj (record : PyDict PyVal) : Except PyError SocketMessage :=
  match dictGet? record "type" with
  | none => .error (.keyError "type")
  | some (.str ts) =>
    match MessageType.fromValue? ts with
    | none => .error (.valueError ("'" ++ ts ++ "' is not a valid MessageType"))
    | some t => applyKwargs { type := t } (dictDel record "type")
  | some _ => .error (.valueError "is not a valid MessageType")

theorem from_to_roundtrip (m : SocketMessage) :
    SocketMessage.from_jsonObj (SocketMessage.to_jsonObj m) = .ok m := by
  obtain ⟨t, st, c, r, e⟩ := m
  cases t <;> cases st <;> cases c <;> cases r <;> cases e <;> rfl

/-! ### Wire framing: `json.dumps(data) + "\n"` -/

/-- One lower-case hex digit, as `json.dumps` writes them. -/
def hexDigit : Nat → Char
  | 0 => '0' | 1 => '1' | 2 => '2' | 3 => '3' | 4 => '4' | 5 => '5'
  | 6 => '6' | 7 => '7' | 8 => '8' | 9 => '9' | 10 => 'a' | 11 => 'b'
  | 12 => 'c' | 13 => 'd' | 14 => 'e' | _ => 'f'

/-- Four hex digits of `n`, most significant first. -/
def hex4 (n : Nat) : String :=
  String.mk [hexDigit (n / 4096 % 16), hexDigit (n / 256 % 16),
    hexDigit (n / 16 % 16), hexDigit (n % 16)]

/-- `json.dumps` escaping of one character (default `ensure_ascii=True`:
control characters and non-ASCII become `\uXXXX` escapes, astral
characters become surrogate pairs). -/
def escapeChar (c : Char) : String :=
  if c = '"' then "\\\""
  else if c = '\\' then "\\\\"
  else if c = '\n' then "\\n"
  else if c = '\r' then "\\r"
  else if c = '\t' then "\\t"
  else if c = '\x08' then "\\b"
  else if c = '\x0c' then "\\f"
  else if c.toNat < 32 ∨ 127 < c.toNat then
    if c.toNat < 65536 then "\\u" ++ hex4 c.toNat
    else
      "\\u" ++ hex4 (55296 + (c.toNat - 65536) / 1024)
        ++ "\\u" ++ hex4 (56320 + (c.toNat - 65536) % 1024)
  else String.singleton c

/-- Escape every character of a string body. -/
def escapeList : List Char → String
  | [] => ""
  | c :: cs => escapeChar c ++ escapeList cs

/-- A JSON string literal as `json.dumps` renders it. -/
def renderString (s : String) : String :=
  "\"" ++ escapeList s.data ++ "\""

/-- Join rendered items with the default `", "` separator: the tail. -/
def joinCommaRest : List String → String
  | [] => ""
  | x :: xs => ", " ++ x ++ joinCommaRest xs

/-- Join rendered items with the default `", "` separator. -/
def joinComma : List String → String
  | [] => ""
  | x :: xs => x ++ joinCommaRest xs

mutual

/-- `json.dumps` rendering of an embedded Python value (default
separators `", "` and `": "`). -/
def PyVal.render : PyVal → String
  | .str s => renderString s
  | .list l => "[" ++ joinComma (renderElems l) ++ "]"
  | .dict d => "\x7b" ++ joinComma (renderFields d) ++ "\x7d"

/-- Rendering of each element of a list value. -/
def renderElems : List PyVal → List String
  | [] => []
  | v :: vs => v.render :: renderElems vs

/-- Rendering of each `"key": value` pair of a dict value. -/
def renderFields : PyDict PyVal → List String
  | [] => []
  | (k, v) :: fs => (renderString k ++ ": " ++ v.render) :: renderFields fs

end

/-- `SocketMessage.to_json`: `json.dumps(data) + "\n"` — serialize the
record built by `to_jsonObj` and append the newline terminator. -/
def SocketMessage.to_json (m : SocketMessage) : String :=
  PyVal.render (PyVal.dict m.to_jsonObj) ++ "\n"

/-- A string with no newline character: the body of a single
newline-delimited wire record. -/
abbrev noNL (s : String) : Prop := '\n' ∉ s.data

theorem noNL_append {a b : String} (ha : noNL a) (hb : noNL b) : noNL (a ++ b) := by
  intro hmem
  have hdata : (a ++ b).data = a.data ++ b.data := rfl
  rw [hdata] at hmem
  rcases List.mem_append.mp hmem with h | h
  · exact ha h
  · exact hb h

theorem hexDigit_ne_newline (n : Nat) : hexDigit n ≠ '\n' := by
  unfold hexDigit
  split <;> decide

theorem noNL_hex4 (n : Nat) : noNL (hex4 n) := by
  intro hmem
  simp only [hex4, String.mk, List.mem_cons, List.not_mem_nil] at hmem
  rcases hmem with h | h | h | h | h
  all_goals first
    | exact hexDigit_ne_newline _ h.symm
    | exact h

theorem escapeChar_noNL (c : Char) : noNL (escapeChar c) := by
  unfold escapeChar
  split_ifs with h1 h2 h3 h4 h5 h6 h7 h8 h9
  · decide
  · decide
  · decide
  · decide
  · decide
  · decide
  · decide
  · exact noNL_append (by decide) (noNL_hex4 _)
  · exact noNL_append
      (noNL_append (noNL_append (by decide) (noNL_hex4 _)) (by decide))
      (noNL_hex4 _)
  · intro hmem
    have : '\n' = c := by simpa [String.singleton] using hmem
    exact h3 this.symm

theorem escapeList_noNL : (cs : List Char) → noNL (escapeList cs)
  | [] => by simp [escapeList, noNL]
  | c :: cs => by
    rw [escapeList]
    exact noNL_append (escapeChar_noNL c) (escapeList_noNL cs)

theorem renderString_noNL (s : String) : noNL (renderString s) := by
  unfold renderString
  exact noNL_append (noNL_append (by decide) (escapeList_noNL s.data)) (by decide)

theorem joinCommaRest_noNL : (l : List String) → (∀ x ∈ l, noNL x) → noNL (joinCommaRest l)
  | [], _ => by simp [joinCommaRest, noNL]
  | x :: xs, h => by
    rw [joinCommaRest]
    exact noNL_append (noNL_append (by decide) (h x (by simp)))
      (joinCommaRest_noNL xs (fun z hz => h z (by simp [hz])))

theorem joinComma_noNL : (l : List String) → (∀ x ∈ l, noNL x) → noNL (joinComma l)
  | [], _ => by simp [joinComma, noNL]
  | x :: xs, h => by
    rw [joinComma]
    exact noNL_append (h x (by simp))
      (joinCommaRest_noNL xs (fun z hz => h z (by simp [hz])))

mutual

theorem render_noNL : (v : PyVal) → noNL v.render
  | .str s => by
    rw [PyVal.render]
    exact renderString_noNL s
  | .list l => by
    rw [PyVal.render]
    exact noNL_append
      (noNL_append (by decide) (joinComma_noNL _ (renderElems_noNL l))) (by decide)
  | .dict d => by
    rw [PyVal.render]
    exact noNL_append
      (noNL_append (by decide) (joinComma_noNL _ (renderFields_noNL d))) (by decide)

theorem renderElems_noNL : (l : List PyVal) → ∀ x ∈ renderElems l, noNL x
  | [] => by simp [renderElems]
  | v :: vs => by
    rw [renderElems]
    intro x hx
    rcases List.mem_cons.mp hx with h | h
    · exact h ▸ render_noNL v
    · exact renderElems_noNL vs x h

theorem renderFields_noNL : (d : PyDict PyVal) → ∀ x ∈ renderFields d, noNL x
  | [] => by simp [renderFields]
  | (k, v) :: fs => by
    rw [renderFields]
    intro x hx
    rcases List.mem_cons.mp hx with h | h
    · exact h ▸ noNL_append (noNL_append (renderString_noNL k) (by decide)) (render_noNL v)
    · exact renderFields_noNL fs x h

end

/-! ## Coordinator state machine (`app/oauth/coordinator.py`) -/

/-- The observable state of an `asyncio.Future[SocketMessage]`: still
pending, resolved by `set_result`, or cancelled. -/
inductive FutStatus : Type where
  | pending
  | resolved (msg : SocketMessage)
  | cancelled

/-- `future.done()`: true once resolved or cancelled. -/
def FutStatus.done : FutStatus → Bool
  | .pending => false
  | _ => true

/-- The coordinator's mutable state. `futures` is the identity-indexed
store of every future ever created (list index = creation order), so that
`self.pending[state] is future` identity tests are expressible; `pending`
is the `Dict[str, Future]` keyed by normalized token, holding indices into
`futures`. `serverOpen` and `socketFileExists` model the listening
transport and its filesystem artifact; `use_tcp` is fixed at
construction (`settings.oauth_use_tcp or platform.system() == "Windows"`). -/
structure CoordState : Type where
  futures : List FutStatus
  pending : PyDict Nat
  serverOpen : Bool
  socketFileExists : Bool
  use_tcp : Bool

/-- A coordinator that has just been constructed (empty pending table, no
future created, transport not bound). -/
def initState (use_tcp : Bool) : CoordState :=
  { futures := [], pending := [], serverOpen := false,
    socketFileExists := false, use_tcp := use_tcp }

/-- Token normalization `state or "__default__"` (lines 100 and 158 of
`coordinator.py`): Python `or` takes the right operand when the left is
falsy, so both `None` and the empty string map to the default slot. -/
def normalizeState : Option String → String
  | none => "__default__"
  | some s => if s == "" then "__default__" else s

/-- `old_future.cancel()` guarded by `old_future.done()` (lines 107-110):
cancel the previous registration's future if the table held one and it is
not yet done. -/
def registerCancelOld (fs : List FutStatus) : Option Nat → List FutStatus
  | some oldFid =>
    match fs[oldFid]? with
    | some .pending => fs.set oldFid .cancelled
    | _ => fs
  | none => fs

/-- The REGISTER half of `_handle_client` (lines 100-113): normalize the
token, create a fresh future, cancel any existing not-yet-done future for
that token, and store the fresh future in `pending`. Returns the new
future's identity (its index: the fresh future is appended to the store). -/
def register (s : CoordState) (state : Option String) : CoordState × Nat :=
  ({ s with
      futures := registerCancelOld (s.futures ++ [FutStatus.pending])
        (dictGet? s.pending (normalizeState state)),
      pending := dictSet s.pending (normalizeState state) s.futures.length },
    s.futures.length)

/-- `deliver_result(state, code, raw)` (lines 144-177): normalize the
token; if no entry is pending for it, return `False`; if the entry's
future is already done, drop the replay and return `False`; otherwise
resolve the future with a DELIVER message carrying the given state, code
and raw, and return `True`. Total: no code path raises. -/
def deliver_result (s : CoordState) (state : Option String) (code : Option String)
    (raw : Option (PyDict PyVal)) : CoordState × Bool :=
  match dictGet? s.pending (normalizeState state) with
  | none => (s, false)
  | some fid =>
    match s.futures[fid]? with
    | some .pending =>
      ({ s with
          futures := s.futures.set fid
            (.resolved { type := .DELIVER, state := state, code := code, raw := raw }) },
        true)
    | _ => (s, false)

/-- The `finally` cleanup of `_handle_client` (lines 129-133): once this
handler's wait completes, delete its entry from `pending` only if the
entry still holds the very future this handler inserted
(`self.pending[state] is future`). -/
def cleanupEntry (s : CoordState) (key : String) (fid : Nat) : CoordState :=
  if dictGet? s.pending key = some fid then
    { s with pending := dictDel s.pending key }
  else s

/-- The effect of `asyncio.wait_for(future, timeout)` expiring in
`_handle_client` (line 117): the awaited future is cancelled if it is
still pending. -/
def timeoutEntry (s : CoordState) (fid : Nat) : CoordState :=
  match s.futures[fid]? with
  | some .pending => { s with futures := s.futures.set fid .cancelled }
  | _ => s

/-- The futures loop of `stop()` (lines 181-185): cancel every not-done
future reachable from the pending table. Does not touch the table itself. -/
def cancelAllPending (entries : PyDict Nat) (futures : List FutStatus) : List FutStatus :=
  entries.foldl
    (fun fs p =>
      match fs[p.2]? with
      | some .pending => fs.set p.2 .cancelled
      | _ => fs)
    futures

/-- `stop()` (lines 179-201): cancel every still-pending entry, close the
listening transport, and remove the socket file when using the
path-addressed (Unix socket) transport. -/
def CoordState.stop (s : CoordState) : CoordState :=
  { s with
    futures := cancelAllPending s.pending s.futures,
    serverOpen := false,
    socketFileExists := if s.use_tcp then s.socketFileExists else false }

/-- One externally observable coordinator operation: a REGISTER
acceptance, a `deliver_result` call, a per-registration wait timeout, a
handler's cleanup, or `stop()`. -/
inductive CoordOp : Type where
  | opRegister (state : Option String)
  | opDeliver (state : Option String) (code : Option String) (raw : Option (PyDict PyVal))
  | opTimeout (fid : Nat)
  | opCleanup (key : String) (fid : Nat)
  | opStop

/-- Apply one operation to the coordinator state. -/
def CoordState.step (s : CoordState) : CoordOp → CoordState
  | .opRegister st => (register s st).1
  | .opDeliver st c r => (deliver_result s st c r).1
  | .opTimeout fid => timeoutEntry s fid
  | .opCleanup key fid => cleanupEntry s key fid
  | .opStop => s.stop

/-- Apply a sequence of operations in order. -/
def CoordState.run (s : CoordState) (ops : List CoordOp) : CoordState :=
  ops.foldl CoordState.step s

/-- Table well-formedness: every future the pending table points to has
actually been created. Holds in every reachable state. -/
def CoordState.wfB (s : CoordState) : Bool :=
  s.pending.all (fun p => p.2 < s.futures.length)

/-- `true` when a `deliver_result` for token key `key` would find no live
waiter: no entry in `pending`, or the entry's future already done. -/
def entryDeadFor (s : CoordState) (key : String) : Bool :=
  match dictGet? s.pending key with
  | none => true
  | some fid =>
    match s.futures[fid]? with
    | some f => f.done
    | none => true

/-- The claimed table invariant of the spec: every entry of the pending
table points at a still-pending (un-resolved, non-cancelled) future. -/
def pendingOnlyLive (s : CoordState) : Bool :=
  s.pending.all
    (fun p =>
      match s.futures[p.2]? with
      | some .pending => true
      | _ => false)

/-- Whether an operation is a new registration for token key `key`. -/
def CoordOp.isRegisterFor (op : CoordOp) (key : String) : Bool :=
  match op with
  | .opRegister st => normalizeState st == key
  | _ => false

/-! ### Coordinator invariant lemmas -/

theorem lt_of_getElem?_eq_some {α : Type} {l : List α} {i : Nat} {a : α}
    (h : l[i]? = some a) : i < l.length :=
  (List.getElem?_eq_some_iff.mp h).1

theorem cancelAllPending_cons (q : String × Nat) (rest : PyDict Nat)
    (futures : List FutStatus) :
    cancelAllPending (q :: rest) futures
      = cancelAllPending rest
          (match futures[q.2]? with
            | some .pending => futures.set q.2 .cancelled
            | _ => futures) := rfl

theorem cancelAllPending_done (entries : PyDict Nat) :
    ∀ (futures : List FutStatus) (i : Nat) (f : FutStatus),
      futures[i]? = some f → f.done = true →
      (cancelAllPending entries futures)[i]? = some f := by
  induction entries with
  | nil => intro futures i f hf _; exact hf
  | cons q rest ih =>
    intro futures i f hf hd
    rw [cancelAllPending_cons]
    by_cases hqi : q.2 = i
    · rw [hqi, hf]
      cases f with
      | pending => simp [FutStatus.done] at hd
      | resolved msg => exact ih futures i _ hf hd
      | cancelled => exact ih futures i _ hf hd
    · cases hq : futures[q.2]? with
      | none => exact ih futures i f hf hd
      | some g =>
        cases g with
        | pending =>
          apply ih _ i f _ hd
          rw [List.getElem?_set_ne hqi]
          exact hf
        | resolved msg => exact ih futures i f hf hd
        | cancelled => exact ih futures i f hf hd

theorem cancelAllPending_length (entries : PyDict Nat) :
    ∀ futures : List FutStatus,
      (cancelAllPending entries futures).length = futures.length := by
  induction entries with
  | nil => intro futures; rfl
  | cons q rest ih =>
    intro futures
    rw [cancelAllPending_cons]
    cases hq : futures[q.2]? with
    | none => exact ih futures
    | some g =>
      cases g with
      | pending => rw [ih, List.length_set]
      | resolved msg => exact ih futures
      | cancelled => exact ih futures

theorem cancelAllPending_cancels (entries : PyDict Nat) :
    ∀ (futures : List FutStatus) (k : String) (fid : Nat),
      (k, fid) ∈ entries → futures[fid]? = some .pending →
      (cancelAllPending entries futures)[fid]? = some FutStatus.cancelled := by
  induction entries with
  | nil => intro _ _ _ h _; simp at h
  | cons q rest ih =>
    intro futures k fid hmem hp
    rw [cancelAllPending_cons]
    by_cases hqi : q.2 = fid
    · rw [hqi, hp]
      exact cancelAllPending_done rest _ fid .cancelled
        (List.getElem?_set_self (lt_of_getElem?_eq_some hp)) rfl
    · rcases List.mem_cons.mp hmem with heq | hrest
      · exact absurd (congrArg Prod.snd heq).symm hqi
      · cases hq : futures[q.2]? with
        | none => exact ih futures k fid hrest hp
        | some g =>
          cases g with
          | pending =>
            apply ih _ k fid hrest
            rw [List.getElem?_set_ne hqi]
            exact hp
          | resolved msg => exact ih futures k fid hrest hp
          | cancelled => exact ih futures k fid hrest hp

theorem futures_done_step (s : CoordState) (op : CoordOp) {i : Nat} {f : FutStatus}
    (hf : s.futures[i]? = some f) (hd : f.done = true) :
    (s.step op).futures[i]? = some f := by
  have hi : i < s.futures.length := lt_of_getElem?_eq_some hf
  cases op with
  | opRegister st =>
    show (registerCancelOld (s.futures ++ [FutStatus.pending])
      (dictGet? s.pending (normalizeState st)))[i]? = some f
    have h1 : (s.futures ++ [FutStatus.pending])[i]? = some f := by
      rw [List.getElem?_append_left hi]
      exact hf
    cases hg : dictGet? s.pending (normalizeState st) with
    | none => exact h1
    | some oldFid =>
      show (match (s.futures ++ [FutStatus.pending])[oldFid]? with
        | some FutStatus.pending =>
          (s.futures ++ [FutStatus.pending]).set oldFid FutStatus.cancelled
        | _ => s.futures ++ [FutStatus.pending])[i]? = some f
      cases hfo : (s.futures ++ [FutStatus.pending])[oldFid]? with
      | none => exact h1
      | some g =>
        cases g with
        | pending =>
          by_cases hoi : oldFid = i
          · rw [hoi] at hfo
            rw [hfo] at h1
            injection h1 with hgf
            rw [← hgf] at hd
            simp [FutStatus.done] at hd
          · rw [List.getElem?_set_ne hoi]
            exact h1
        | resolved msg => exact h1
        | cancelled => exact h1
  | opDeliver st c r =>
    show (deliver_result s st c r).1.futures[i]? = some f
    unfold deliver_result
    cases hg : dictGet? s.pending (normalizeState st) with
    | none => exact hf
    | some fid =>
      dsimp only
      cases hfid : s.futures[fid]? with
      | none => exact hf
      | some g =>
        cases g with
        | pending =>
          have hne : fid ≠ i := by
            intro he
            rw [he, hf] at hfid
            injection hfid with hgf
            rw [hgf] at hd
            simp [FutStatus.done] at hd
          show (s.futures.set fid _)[i]? = some f
          rw [List.getElem?_set_ne hne]
          exact hf
        | resolved msg => exact hf
        | cancelled => exact hf
  | opTimeout fid =>
    show (timeoutEntry s fid).futures[i]? = some f
    unfold timeoutEntry
    cases hfid : s.futures[fid]? with
    | none => exact hf
    | some g =>
      cases g with
      | pending =>
        have hne : fid ≠ i := by
          intro he
          rw [he, hf] at hfid
          injection hfid with hgf
          rw [hgf] at hd
          simp [FutStatus.done] at hd
        show (s.futures.set fid _)[i]? = some f
        rw [List.getElem?_set_ne hne]
        exact hf
      | resolved msg => exact hf
      | cancelled => exact hf
  | opCleanup key fid =>
    show (cleanupEntry s key fid).futures[i]? = some f
    unfold cleanupEntry
    split <;> exact hf
  | opStop =>
    exact cancelAllPending_done s.pending s.futures i f hf hd

theorem futures_done_run (ops : List CoordOp) :
    ∀ (s : CoordState) {i : Nat} {f : FutStatus},
      s.futures[i]? = some f → f.done = true →
      (s.run ops).futures[i]? = some f := by
  induction ops with
  | nil => intro s i f hf _; exact hf
  | cons op rest ih =>
    intro s i f hf hd
    exact ih (s.step op) (futures_done_step s op hf hd) hd

theorem dictSet_mem {α : Type} {d : PyDict α} {k : String} {v : α} {p : String × α}
    (hp : p ∈ dictSet d k v) : p ∈ d ∨ p.2 = v := by
  unfold dictSet at hp
  by_cases ha : d.any (fun q => q.1 == k)
  · rw [if_pos ha] at hp
    rcases List.mem_map.mp hp with ⟨q, hq, hqe⟩
    by_cases hqk : q.1 == k
    · right
      rw [← hqe]
      simp [hqk]
    · left
      rw [← hqe]
      simp only [hqk, if_false]
      exact hq
  · rw [if_neg ha] at hp
    rcases List.mem_append.mp hp with h | h
    · left
      exact h
    · right
      have : p = (k, v) := by simpa using h
      rw [this]

theorem register_pending (s : CoordState) (st : Option String) :
    (register s st).1.pending
      = dictSet s.pending (normalizeState st) s.futures.length := rfl

theorem registerCancelOld_length (fs : List FutStatus) (o : Option Nat) :
    (registerCancelOld fs o).length = fs.length := by
  cases o with
  | none => rfl
  | some oldFid =>
    show (match fs[oldFid]? with
      | some FutStatus.pending => fs.set oldFid FutStatus.cancelled
      | _ => fs).length = fs.length
    cases hf : fs[oldFid]? with
    | none => rfl
    | some g => cases g <;> simp

theorem register_futures_length (s : CoordState) (st : Option String) :
    (register s st).1.futures.length = s.futures.length + 1 := by
  show (registerCancelOld (s.futures ++ [FutStatus.pending])
    (dictGet? s.pending (normalizeState st))).length = s.futures.length + 1
  rw [registerCancelOld_length]
  simp

theorem deliver_pending (s : CoordState) (st : Option String) (c : Option String)
    (r : Option (PyDict PyVal)) : (deliver_result s st c r).1.pending = s.pending := by
  unfold deliver_result
  cases dictGet? s.pending (normalizeState st) with
  | none => rfl
  | some fid =>
    dsimp only
    cases s.futures[fid]? with
    | none => rfl
    | some g => cases g <;> rfl

theorem deliver_futures_length (s : CoordState) (st : Option String) (c : Option String)
    (r : Option (PyDict PyVal)) :
    (deliver_result s st c r).1.futures.length = s.futures.length := by
  unfold deliver_result
  cases dictGet? s.pending (normalizeState st) with
  | none => rfl
  | some fid =>
    dsimp only
    cases s.futures[fid]? with
    | none => rfl
    | some g => cases g <;> simp

theorem timeout_pending (s : CoordState) (fid : Nat) :
    (timeoutEntry s fid).pending = s.pending := by
  unfold timeoutEntry
  cases s.futures[fid]? with
  | none => rfl
  | some g => cases g <;> rfl

theorem timeout_futures_length (s : CoordState) (fid : Nat) :
    (timeoutEntry s fid).futures.length = s.futures.length := by
  unfold timeoutEntry
  cases s.futures[fid]? with
  | none => rfl
  | some g => cases g <;> simp

theorem cleanup_futures (s : CoordState) (key : String) (fid : Nat) :
    (cleanupEntry s key fid).futures = s.futures := by
  unfold cleanupEntry
  split <;> rfl

theorem stop_pending (s : CoordState) : s.stop.pending = s.pending := rfl

theorem stop_futures_length (s : CoordState) :
    s.stop.futures.length = s.futures.length :=
  cancelAllPending_length s.pending s.futures

theorem wfB_step (s : CoordState) (op : CoordOp) (h : s.wfB = true) :
    (s.step op).wfB = true := by
  simp only [CoordState.wfB, List.all_eq_true, decide_eq_true_eq] at h ⊢
  intro p hp
  cases op with
  | opRegister st =>
    rw [show (s.step (.opRegister st)).futures = (register s st).1.futures from rfl,
      register_futures_length]
    rw [show (s.step (.opRegister st)).pending
      = dictSet s.pending (normalizeState st) s.futures.length from rfl] at hp
    rcases dictSet_mem hp with hmem | hv
    · exact Nat.lt_succ_of_lt (h p hmem)
    · rw [hv]
      exact Nat.lt_succ_self _
  | opDeliver st c r =>
    rw [show (s.step (.opDeliver st c r)).pending = (deliver_result s st c r).1.pending from rfl,
      deliver_pending] at hp
    rw [show (s.step (.opDeliver st c r)).futures = (deliver_result s st c r).1.futures from rfl,
      deliver_futures_length]
    exact h p hp
  | opTimeout fid =>
    rw [show (s.step (.opTimeout fid)).pending = (timeoutEntry s fid).pending from rfl,
      timeout_pending] at hp
    rw [show (s.step (.opTimeout fid)).futures = (timeoutEntry s fid).futures from rfl,
      timeout_futures_length]
    exact h p hp
  | opCleanup key fid =>
    rw [show (s.step (.opCleanup key fid)).futures = (cleanupEntry s key fid).futures from rfl,
      cleanup_futures]
    have hmem : p ∈ s.pending := by
      have hpend := hp
      rw [show (s.step (.opCleanup key fid)).pending = (cleanupEntry s key fid).pending from rfl] at hpend
      unfold cleanupEntry at hpend
      by_cases hc : dictGet? s.pending key = some fid
      · rw [if_pos hc] at hpend
        exact (List.mem_filter.mp hpend).1
      · rw [if_neg hc] at hpend
        exact hpend
    exact h p hmem
  | opStop =>
    rw [show (s.step .opStop).futures = s.stop.futures from rfl, stop_futures_length]
    rw [show (s.step .opStop).pending = s.pending from rfl] at hp
    exact h p hp

theorem wfB_run (ops : List CoordOp) :
    ∀ s : CoordState, s.wfB = true → (s.run ops).wfB = true := by
  induction ops with
  | nil => intro s h; exact h
  | cons op rest ih => intro s h; exact ih (s.step op) (wfB_step s op h)

theorem step_pendingGet (s : CoordState) (op : CoordOp) (key : String)
    (hop : op.isRegisterFor key = false) :
    dictGet? (s.step op).pending key = dictGet? s.pending key
      ∨ dictGet? (s.step op).pending key = none := by
  cases op with
  | opRegister st =>
    left
    have hnk : normalizeState st ≠ key := by
      simpa [CoordOp.isRegisterFor] using hop
    rw [show (s.step (.opRegister st)).pending
      = dictSet s.pending (normalizeState st) s.futures.length from rfl]
    rw [dictGet?_set]
    rw [if_neg (fun he => hnk he.symm)]
  | opDeliver st c r =>
    left
    rw [show (s.step (.opDeliver st c r)).pending = (deliver_result s st c r).1.pending from rfl,
      deliver_pending]
  | opTimeout fid =>
    left
    rw [show (s.step (.opTimeout fid)).pending = (timeoutEntry s fid).pending from rfl,
      timeout_pending]
  | opCleanup key' fid =>
    rw [show (s.step (.opCleanup key' fid)).pending = (cleanupEntry s key' fid).pending from rfl]
    unfold cleanupEntry
    by_cases hc : dictGet? s.pending key' = some fid
    · rw [if_pos hc]
      show dictGet? (dictDel s.pending key') key = _ ∨ dictGet? (dictDel s.pending key') key = none
      rw [dictGet?_del]
      by_cases hkk : key = key'
      · right
        rw [if_pos hkk]
      · left
        rw [if_neg hkk]
    · rw [if_neg hc]
      left
      rfl
  | opStop =>
    left
    rw [show (s.step .opStop).pending = s.pending from rfl]

theorem entryDead_step (s : CoordState) (op : CoordOp) (key : String)
    (hwf : s.wfB = true) (hd : entryDeadFor s key = true)
    (hop : op.isRegisterFor key = false) :
    entryDeadFor (s.step op) key = true := by
  unfold entryDeadFor at hd ⊢
  rcases step_pendingGet s op key hop with hlook | hlook
  · rw [hlook]
    cases hg : dictGet? s.pending key with
    | none => rfl
    | some fid =>
      dsimp only
      rw [hg] at hd
      dsimp only at hd
      cases hf : s.futures[fid]? with
      | none =>
        have hlt : fid < s.futures.length := by
          simp only [CoordState.wfB, List.all_eq_true, decide_eq_true_eq] at hwf
          exact hwf _ (mem_of_dictGet?_eq_some hg)
        rw [List.getElem?_eq_none_iff] at hf
        omega
      | some f =>
        rw [hf] at hd
        rw [futures_done_step s op hf hd]
        exact hd
  · rw [hlook]

theorem entryDead_run (ops : List CoordOp) :
    ∀ s : CoordState, ∀ key : String,
      s.wfB = true → entryDeadFor s key = true →
      (∀ op ∈ ops, op.isRegisterFor key = false) →
      entryDeadFor (s.run ops) key = true := by
  induction ops with
  | nil => intro s key _ hd _; exact hd
  | cons op rest ih =>
    intro s key hwf hd hops
    exact ih (s.step op) key (wfB_step s op hwf)
      (entryDead_step s op key hwf hd (hops op (by simp)))
      (fun o ho => hops o (by simp [ho]))

/-- `deliver_result` when no live waiter exists for the normalized token:
returns `False` and leaves the whole state untouched. -/
theorem deliver_result_dead (s : CoordState) (st : Option String) (c : Option String)
    (r : Option (PyDict PyVal)) (hd : entryDeadFor s (normalizeState st) = true) :
    deliver_result s st c r = (s, false) := by
  unfold entryDeadFor at hd
  unfold deliver_result
  cases hg : dictGet? s.pending (normalizeState st) with
  | none => rfl
  | some fid =>
    rw [hg] at hd
    dsimp only
    dsimp only at hd
    cases hf : s.futures[fid]? with
    | none => rfl
    | some f =>
      rw [hf] at hd
      cases f with
      | pending => simp [FutStatus.done] at hd
      | resolved msg => rfl
      | cancelled => rfl

/-- `deliver_result` when a live waiter exists: resolves exactly that
waiter's future with the DELIVER message built from the call's arguments
and returns `True`. -/
theorem deliver_result_live (s : CoordState) (st : Option String) (c : Option String)
    (r : Option (PyDict PyVal)) (hl : entryDeadFor s (normalizeState st) = false) :
    ∃ fid, dictGet? s.pending (normalizeState st) = some fid
      ∧ s.futures[fid]? = some FutStatus.pending
      ∧ deliver_result s st c r =
          ({ s with
              futures := s.futures.set fid
                (.resolved { type := .DELIVER, state := st, code := c, raw := r }) },
            true) := by
  unfold entryDeadFor at hl
  cases hg : dictGet? s.pending (normalizeState st) with
  | none =>
    rw [hg] at hl
    cases hl
  | some fid =>
    rw [hg] at hl
    dsimp only at hl
    cases hf : s.futures[fid]? with
    | none =>
      rw [hf] at hl
      cases hl
    | some f =>
      rw [hf] at hl
      cases f with
      | pending =>
        refine ⟨fid, rfl, hf, ?_⟩
        unfold deliver_result
        rw [hg]
        dsimp only
        rw [hf]
      | resolved msg => simp [FutStatus.done] at hl
      | cancelled => simp [FutStatus.done] at hl

theorem cancelled_run (s : CoordState) (ops : List CoordOp) {i : Nat}
    (h : s.futures[i]? = some FutStatus.cancelled) :
    (s.run ops).futures[i]? = some FutStatus.cancelled :=
  futures_done_run ops s h rfl

/-- Accepting a second registration while the prior entry is still pending:
the prior future is cancelled, the table points at the fresh future, and
the fresh future is pending. -/
theorem register_replaces (s : CoordState) (st : Option String) {oldFid : Nat}
    (hold : dictGet? s.pending (normalizeState st) = some oldFid)
    (hpend : s.futures[oldFid]? = some FutStatus.pending) :
    (register s st).1.futures[oldFid]? = some FutStatus.cancelled
      ∧ dictGet? (register s st).1.pending (normalizeState st) = some s.futures.length
      ∧ (register s st).2 = s.futures.length
      ∧ (register s st).1.futures[s.futures.length]? = some FutStatus.pending
      ∧ oldFid ≠ s.futures.length := by
  have hlt : oldFid < s.futures.length := lt_of_getElem?_eq_some hpend
  have happ : (s.futures ++ [FutStatus.pending])[oldFid]? = some FutStatus.pending := by
    rw [List.getElem?_append_left hlt]
    exact hpend
  have hfut : (register s st).1.futures
      = (s.futures ++ [FutStatus.pending]).set oldFid FutStatus.cancelled := by
    show registerCancelOld (s.futures ++ [FutStatus.pending])
      (dictGet? s.pending (normalizeState st)) = _
    rw [hold]
    show (match (s.futures ++ [FutStatus.pending])[oldFid]? with
      | some FutStatus.pending =>
        (s.futures ++ [FutStatus.pending]).set oldFid FutStatus.cancelled
      | _ => s.futures ++ [FutStatus.pending]) = _
    rw [happ]
  refine ⟨?_, ?_, rfl, ?_, by omega⟩
  · rw [hfut]
    exact List.getElem?_set_self (by rw [List.length_append]; simp; omega)
  · rw [register_pending, dictGet?_set, if_pos rfl]
  · rw [hfut, List.getElem?_set_ne (by omega)]
    exact List.getElem?_concat_length _ _

/-- After any accepted registration on a well-formed state, the table
points at the fresh future and the fresh future is pending. -/
theorem register_fresh (s : CoordState) (st : Option String) (hwf : s.wfB = true) :
    dictGet? (register s st).1.pending (normalizeState st) = some s.futures.length
      ∧ (register s st).1.futures[s.futures.length]? = some FutStatus.pending := by
  constructor
  · rw [register_pending, dictGet?_set, if_pos rfl]
  · show (registerCancelOld (s.futures ++ [FutStatus.pending])
      (dictGet? s.pending (normalizeState st)))[s.futures.length]? = _
    cases hold : dictGet? s.pending (normalizeState st) with
    | none => exact List.getElem?_concat_length _ _
    | some oldFid =>
      have hlt : oldFid < s.futures.length := by
        simp only [CoordState.wfB, List.all_eq_true, decide_eq_true_eq] at hwf
        exact hwf _ (mem_of_dictGet?_eq_some hold)
      show (match (s.futures ++ [FutStatus.pending])[oldFid]? with
        | some FutStatus.pending =>
          (s.futures ++ [FutStatus.pending]).set oldFid FutStatus.cancelled
        | _ => s.futures ++ [FutStatus.pending])[s.futures.length]? = _
      cases happ : (s.futures ++ [FutStatus.pending])[oldFid]? with
      | none => exact List.getElem?_concat_length _ _
      | some g =>
        cases g with
        | pending =>
          rw [List.getElem?_set_ne (by omega)]
          exact List.getElem?_concat_length _ _
        | resolved msg => exact List.getElem?_concat_length _ _
        | cancelled => exact List.getElem?_concat_length _ _

theorem entryDead_after_register (s : CoordState) (st : Option String)
    (hwf : s.wfB = true) :
    entryDeadFor (register s st).1 (normalizeState st) = false := by
  obtain ⟨h1, h2⟩ := register_fresh s st hwf
  unfold entryDeadFor
  rw [h1]
  dsimp only
  rw [h2]
  rfl

/-! ## Client API (`app/oauth/client.py`) -/

/-- The exception classes of `app/oauth/client.py` as raised to the
caller of `wait_for_code`, plus `pyExc` for a CPython exception that is
not one of the typed relay errors (e.g. the `ValueError` or
`json.JSONDecodeError` that `SocketMessage.from_json` raises on a
malformed reply line, which `wait_for_code` does not catch). -/
inductive ClientError : Type where
  | oauthConnectionError (msg : String)
  | oauthTimeoutError (msg : String)
  | oauthRelayError (msg : String)
  | pyExc (e : PyError)
deriving DecidableEq

/-- Whether the surfaced error is `OAuthRelayError` or one of its
subclasses (`OAuthTimeoutError`, `OAuthConnectionError`). -/
def ClientError.isTypedRelayError : ClientError → Bool
  | .oauthConnectionError _ => true
  | .oauthTimeoutError _ => true
  | .oauthRelayError _ => true
  | .pyExc _ => false

/-- `RelayResult` from `app/oauth/models.py`. -/
structure RelayResult : Type where
  code : Option String := none
  raw : Option (PyDict PyVal) := none

/-- `RelayResult.success`: true iff a code was extracted. -/
def RelayResult.success (r : RelayResult) : Bool := r.code.isSome

/-- How the connect phase of `wait_for_code` ends (lines 75-102): the
environment's answer to opening the Unix-socket or TCP connection under
the fixed 10-second `asyncio.wait_for` bound. -/
inductive ConnectOutcome : Type where
  | connected
  | timedOut
  | refused
  | fileNotFound
  | otherExc (e : String)

/-- How the reply phase ends (lines 112-122): `readline` bounded by the
effective wait timeout either times out, returns EOF (empty line),
returns a line that `json.loads` parses to a record, or returns a line
that `json.loads` rejects (raising `json.JSONDecodeError`). -/
inductive ReplyOutcome : Type where
  | timedOut
  | closed
  | line (record : PyDict PyVal)
  | unparsable (e : String)

/-- The `oauth_*` settings the client reads. -/
structure ClientSettings : Type where
  oauth_socket_path : String
  oauth_tcp_fallback_port : Nat
  oauth_default_timeout : Rat
  oauth_use_tcp : Bool

/-- `wait_timeout = timeout if timeout is not None else
settings.oauth_default_timeout` (line 70). -/
def effectiveTimeout (timeout : Option Rat) (settings : ClientSettings) : Rat :=
  match timeout with
  | some t => t
  | none => settings.oauth_default_timeout

/-- The fixed connect-phase timeout passed to `asyncio.wait_for` around
`open_connection` / `open_unix_connection` (lines 78-87): 10 seconds. -/
def connectTimeoutSeconds : Rat := 10

/-- `wait_for_code(state, timeout, settings)` (lines 32-136), as a function
of the connection environment: classify the connect phase (every failure
becomes `OAuthConnectionError`); on success send one REGISTER and wait for
one reply line bounded by the effective timeout; a reply-phase timeout
becomes `OAuthTimeoutError`; EOF becomes `OAuthRelayError`; a parsable
reply is decoded with `SocketMessage.from_json` (whose exceptions
propagate uncaught), demanding a DELIVER tag; a DELIVER reply yields a
`RelayResult` of its `code`/`raw` fields. -/
def wait_for_code (state : Option String) (timeout : Option Rat)
    (settings : ClientSettings) (connect : ConnectOutcome) (reply : ReplyOutcome) :
    Except ClientError RelayResult :=
  match connect with
  | .timedOut =>
    .error (.oauthConnectionError
      "Timeout connecting to OAuth coordinator (is the relay server running?)")
  | .refused =>
    .error (.oauthConnectionError
      ("Cannot connect to OAuth coordinator on " ++ settings.oauth_socket_path))
  | .fileNotFound =>
    .error (.oauthConnectionError
      ("OAuth coordinator socket not found at " ++ settings.oauth_socket_path))
  | .otherExc e =>
    .error (.oauthConnectionError ("Failed to connect to OAuth coordinator: " ++ e))
  | .connected =>
    match reply with
    | .timedOut =>
      .error (.oauthTimeoutError
        ("Timeout waiting for OAuth callback after "
          ++ toString (effectiveTimeout timeout settings) ++ "s"))
    | .closed =>
      .error (.oauthRelayError "Coordinator closed connection without sending result")
    | .unparsable e => .error (.pyExc (.jsonDecodeError e))
    | .line record =>
      match SocketMessage.from_jsonObj record with
      | .error e => .error (.pyExc e)
      | .ok msg =>
        if msg.type = MessageType.DELIVER then
          .ok { code := msg.code, raw := msg.raw }
        else
          .error (.oauthRelayError ("Unexpected message type: " ++ msg.type.value))

/-- The REGISTER message `wait_for_code` writes after connecting
(line 106): `SocketMessage(type=MessageType.REGISTER, state=state)`. -/
def clientRegisterMessage (state : Option String) : SocketMessage :=
  { type := .REGISTER, state := state }

/-! ## Claim theorems -/

/-- A freshly constructed Unix-socket coordinator. -/
def coordEx0 : CoordState := initState false

/-- `coordEx0` after one registration for token `"t"`. -/
def coordExReg : CoordState := (register coordEx0 (some "t")).1

/-- `coordExReg` after a successful delivery for token `"t"`: the future
is resolved but the handler's cleanup has not yet run. -/
def coordExDel : CoordState := (deliver_result coordExReg (some "t") (some "abc123") none).1

/-- C1: `deliver_result(state, code, raw)` returns `false` and leaves the
pending table and every future unchanged when the normalized token has no
pending entry or its entry's future is already done; otherwise it resolves
the entry's future with a DELIVER message carrying the given state, code
and raw, and returns `true`. It is a total function in the embedding (no
code path raises on no-waiter or already-delivered). Once a call has
returned `true`, every further `deliver_result` for the same normalized
token returns `false` across any sequence of coordinator operations that
contains no new registration for that token. -/
theorem C1_deliver_result_contract (s : CoordState) (hwf : s.wfB = true)
    (st c : Option String) (r : Option (PyDict PyVal)) :
    (entryDeadFor s (normalizeState st) = true →
      deliver_result s st c r = (s, false))
    ∧ (entryDeadFor s (normalizeState st) = false →
      ∃ fid, dictGet? s.pending (normalizeState st) = some fid
        ∧ deliver_result s st c r =
            ({ s with
                futures := s.futures.set fid
                  (.resolved { type := .DELIVER, state := st, code := c, raw := r }) },
              true))
    ∧ ((deliver_result s st c r).2 = true →
      ∀ ops : List CoordOp,
        (∀ op ∈ ops, op.isRegisterFor (normalizeState st) = false) →
        ∀ st' c' : Option String, ∀ r' : Option (PyDict PyVal),
          normalizeState st' = normalizeState st →
          (deliver_result (((deliver_result s st c r).1).run ops) st' c' r').2 = false) := by
  refine ⟨fun hd => deliver_result_dead s st c r hd, ?_, ?_⟩
  · intro hl
    obtain ⟨fid, hget, hpend, heq⟩ := deliver_result_live s st c r hl
    exact ⟨fid, hget, heq⟩
  · intro htrue ops hops st' c' r' hst'
    have hl : entryDeadFor s (normalizeState st) = false := by
      cases hcase : entryDeadFor s (normalizeState st) with
      | false => rfl
      | true =>
        rw [deliver_result_dead s st c r hcase] at htrue
        cases htrue
    obtain ⟨fid, hget, hpend, heq⟩ := deliver_result_live s st c r hl
    have hs1 : (deliver_result s st c r).1 = { s with
        futures := s.futures.set fid
          (.resolved { type := .DELIVER, state := st, code := c, raw := r }) } := by
      rw [heq]
    have hwf1 : (deliver_result s st c r).1.wfB = true := wfB_step s (.opDeliver st c r) hwf
    have hdead1 : entryDeadFor (deliver_result s st c r).1 (normalizeState st) = true := by
      rw [hs1]
      unfold entryDeadFor
      have hget1 : dictGet? s.pending (normalizeState st) = some fid := hget
      show (match dictGet? s.pending (normalizeState st) with
        | none => true
        | some fid' =>
          match (s.futures.set fid
            (FutStatus.resolved { type := .DELIVER, state := st, code := c, raw := r }))[fid']? with
          | some f => f.done
          | none => true) = true
      rw [hget1]
      dsimp only
      rw [List.getElem?_set_self (lt_of_getElem?_eq_some hpend)]
      rfl
    have hdeadrun : entryDeadFor ((deliver_result s st c r).1.run ops) (normalizeState st) = true :=
      entryDead_run ops (deliver_result s st c r).1 (normalizeState st) hwf1 hdead1 hops
    have := deliver_result_dead ((deliver_result s st c r).1.run ops) st' c' r' (by rw [hst']; exact hdeadrun)
    rw [this]

/-- C1 witness: on the concrete coordinator `coordExReg` (one live waiter
for `"t"`), a delivery returns `true`; afterwards (with no intervening
operations) a second delivery for `"t"` returns `false`; and on
`coordExDel` (already delivered) a replay returns `false` with the state
untouched. -/
theorem C1_deliver_result_contract_witness :
    deliver_result coordExDel (some "t") (some "x") none = (coordExDel, false)
    ∧ (deliver_result ((deliver_result coordExReg (some "t") (some "abc123") none).1.run [])
        (some "t") (some "x") none).2 = false := by
  constructor
  · exact (C1_deliver_result_contract coordExDel (by decide) (some "t") (some "x") none).1
      (by decide)
  · exact (C1_deliver_result_contract coordExReg (by decide) (some "t") (some "abc123") none).2.2
      (by decide) [] (by simp) (some "t") (some "x") none rfl

/-- C2: accepting a second registration for a token whose prior entry is
still pending cancels the prior future, repoints the table at the fresh
future (a different identity), keeps the prior future cancelled under any
further sequence of operations (so its waiter can only ever observe
cancellation, never a delivered value), and makes the fresh future the one
that the next delivery for that token resolves. -/
theorem C2_register_replacement (s : CoordState) (st : Option String) (oldFid : Nat)
    (hold : dictGet? s.pending (normalizeState st) = some oldFid)
    (hpend : s.futures[oldFid]? = some FutStatus.pending) :
    (register s st).1.futures[oldFid]? = some FutStatus.cancelled
    ∧ dictGet? (register s st).1.pending (normalizeState st) = some (register s st).2
    ∧ (register s st).2 ≠ oldFid
    ∧ (∀ ops : List CoordOp,
        (((register s st).1).run ops).futures[oldFid]? = some FutStatus.cancelled)
    ∧ (∀ c : Option String, ∀ r : Option (PyDict PyVal), ∀ st' : Option String,
        normalizeState st' = normalizeState st →
        (deliver_result (register s st).1 st' c r).2 = true
        ∧ (deliver_result (register s st).1 st' c r).1.futures[(register s st).2]?
            = some (FutStatus.resolved
                { type := .DELIVER, state := st', code := c, raw := r })) := by
  obtain ⟨hcanc, hnewget, hfid, hnewpend, hne⟩ := register_replaces s st hold hpend
  have hfid' : (register s st).2 = s.futures.length := hfid
  refine ⟨hcanc, by rw [hfid', hnewget], by rw [hfid']; exact fun he => hne he.symm, ?_, ?_⟩
  · intro ops
    exact cancelled_run (register s st).1 ops hcanc
  · intro c r st' hst'
    have hlive : entryDeadFor (register s st).1 (normalizeState st') = false := by
      rw [hst']
      unfold entryDeadFor
      rw [hnewget]
      dsimp only
      rw [hnewpend]
      rfl
    obtain ⟨fid', hget', hpend', heq'⟩ := deliver_result_live (register s st).1 st' c r hlive
    have hfe : fid' = s.futures.length := by
      rw [hst'] at hget'
      rw [hnewget] at hget'
      injection hget' with h
      exact h.symm
    constructor
    · rw [heq']
    · rw [heq', hfid']
      show ((register s st).1.futures.set fid'
        (FutStatus.resolved { type := .DELIVER, state := st', code := c, raw := r }))[s.futures.length]?
          = _
      rw [← hfe] at hnewpend ⊢
      exact List.getElem?_set_self (lt_of_getElem?_eq_some hpend')

/-- C2 witness: register twice for `"t"` on the fresh coordinator; the
first future (index 0) is cancelled and stays cancelled, the table points
at the new future (index 1), and a delivery resolves the new future. -/
theorem C2_register_replacement_witness :
    (register coordExReg (some "t")).1.futures[0]? = some FutStatus.cancelled
    ∧ (deliver_result (register coordExReg (some "t")).1 (some "t") (some "c2") none).2 = true := by
  have h := C2_register_replacement coordExReg (some "t") 0 (by decide) (by rfl)
  exact ⟨h.1, (h.2.2.2.2 (some "c2") none (some "t") rfl).1⟩

/-- C3: `extract_code` coincides with the spec's reference extraction
algorithm on every payload and candidate-key list, and on the tested
boundary (candidates `["code", "authorization_code"]`, payload
`{"authorization_code": "A", "code": ""}`) it returns absent rather than
falling through to `"A"`. -/
theorem C3_extract_code_refines (data : PyDict PyVal) (keys : List String) :
    extract_code data keys = extractSpec data keys
    ∧ extract_code [("authorization_code", PyVal.str "A"), ("code", PyVal.str "")]
        ["code", "authorization_code"] = none :=
  ⟨extract_code_eq_extractSpec data keys, by decide⟩

theorem dictGet?_cons_self {α : Type} (k : String) (v : α) (d : PyDict α) :
    dictGet? ((k, v) :: d) k = some v := by
  unfold dictGet?
  rw [List.find?_cons_of_pos _ (by simp)]
  rfl

/-- C4: decoding inverts encoding for every message (all tags, every
combination of present/absent optional fields); the wire form is a single
newline-terminated record (no interior newline); each optional field's key
is on the wire exactly when the field is present (absent fields are
omitted, and the value model has no `null`); and decoding a record with
every optional field omitted yields the all-`none` message rather than
empty-string defaults. -/
theorem C4_roundtrip_and_framing (m : SocketMessage) :
    SocketMessage.from_jsonObj (SocketMessage.to_jsonObj m) = Except.ok m
    ∧ (∃ body, SocketMessage.to_json m = body ++ "\n" ∧ noNL body)
    ∧ ((SocketMessage.to_jsonObj m).map Prod.fst).contains "type" = true
    ∧ ((SocketMessage.to_jsonObj m).map Prod.fst).contains "state" = m.state.isSome
    ∧ ((SocketMessage.to_jsonObj m).map Prod.fst).contains "code" = m.code.isSome
    ∧ ((SocketMessage.to_jsonObj m).map Prod.fst).contains "raw" = m.raw.isSome
    ∧ ((SocketMessage.to_jsonObj m).map Prod.fst).contains "error" = m.error.isSome
    ∧ SocketMessage.from_jsonObj [("type", PyVal.str m.type.value)]
        = Except.ok { type := m.type } := by
  refine ⟨from_to_roundtrip m,
    ⟨PyVal.render (PyVal.dict m.to_jsonObj), rfl, render_noNL _⟩, ?_, ?_, ?_, ?_, ?_, ?_⟩
  · rfl
  · obtain ⟨t, st, c, r, e⟩ := m
    cases st <;> cases c <;> cases r <;> cases e <;> rfl
  · obtain ⟨t, st, c, r, e⟩ := m
    cases st <;> cases c <;> cases r <;> cases e <;> rfl
  · obtain ⟨t, st, c, r, e⟩ := m
    cases st <;> cases c <;> cases r <;> cases e <;> rfl
  · obtain ⟨t, st, c, r, e⟩ := m
    cases st <;> cases c <;> cases r <;> cases e <;> rfl
  · obtain ⟨t, st, c, r, e⟩ := m
    cases t <;> rfl

/-- C5 counterexample: decoding a record with the unknown tag `"BOGUS"`
fails with CPython's `ValueError` (raised by the `MessageType`
constructor), which is not the `ProtocolError` the claim names — no
`ProtocolError` class exists anywhere in the source. -/
theorem C5_counterexample :
    SocketMessage.from_jsonObj [("type", PyVal.str "BOGUS")]
        = Except.error (PyError.valueError "'BOGUS' is not a valid MessageType")
    ∧ PyError.isProtocolError (PyError.valueError "'BOGUS' is not a valid MessageType")
        = false :=
  ⟨rfl, rfl⟩

/-- C5 (amended): on malformed input `from_json` raises CPython's stock
exceptions — `ValueError` for an unknown tag (and `json.JSONDecodeError`,
a `ValueError` subclass, for an unparsable body), `KeyError` for a missing
tag — never a `ProtocolError`, which no source file defines; on every
well-formed input (an encoding of a message) it succeeds and is the exact
inverse of encode. -/
theorem C5_decode_contract (m : SocketMessage) (ts : String) (rest : PyDict PyVal)
    (hts : MessageType.fromValue? ts = none) :
    SocketMessage.from_jsonObj (SocketMessage.to_jsonObj m) = Except.ok m
    ∧ SocketMessage.from_jsonObj (("type", PyVal.str ts) :: rest)
        = Except.error (PyError.valueError ("'" ++ ts ++ "' is not a valid MessageType"))
    ∧ (∀ e, (Except.error (PyError.valueError ("'" ++ ts ++ "' is not a valid MessageType"))
          : Except PyError SocketMessage)
        ≠ Except.error (PyError.protocolError e))
    ∧ (dictGet? rest "type" = none →
        SocketMessage.from_jsonObj rest = Except.error (PyError.keyError "type")) := by
  refine ⟨from_to_roundtrip m, ?_, ?_, ?_⟩
  · unfold SocketMessage.from_jsonObj
    rw [dictGet?_cons_self]
    dsimp only
    rw [hts]
  · intro e h
    injection h with h'
    exact PyError.noConfusion h'
  · intro hnone
    unfold SocketMessage.from_jsonObj
    rw [hnone]

/-- C5 witness: the amended contract applied to the concrete unknown tag
`"BOGUS"` and to the empty record (missing tag). -/
theorem C5_decode_contract_witness :
    SocketMessage.from_jsonObj [("type", PyVal.str "BOGUS")]
        = Except.error (PyError.valueError "'BOGUS' is not a valid MessageType")
    ∧ SocketMessage.from_jsonObj ([] : PyDict PyVal)
        = Except.error (PyError.keyError "type") := by
  have h := C5_decode_contract { type := MessageType.REGISTER } "BOGUS" [] (by decide)
  exact ⟨h.2.1, h.2.2.2 rfl⟩

/-- Settings with the client defaults of `app/oauth/client.py`
(lines 62-67). -/
def clientSettingsEx : ClientSettings :=
  { oauth_socket_path := "/tmp/poast-relay-oauth.sock",
    oauth_tcp_fallback_port := 9999,
    oauth_default_timeout := 300,
    oauth_use_tcp := false }

/-- C6: `wait_for_code` classifies its outcomes exactly as the spec lists:
every connect-phase failure (refused, socket not found, expiry of the
fixed 10-second connect bound, any other connect exception) surfaces as
`OAuthConnectionError`; expiry of the effective wait timeout surfaces as
`OAuthTimeoutError`; EOF with no reply surfaces as `OAuthRelayError`
"closed without result"; a well-formed reply whose tag is not DELIVER
surfaces as `OAuthRelayError` "unexpected message type"; and a DELIVER
reply returns a `RelayResult` built from the reply's code and raw. The
effective timeout is the explicit argument when given, else THE settings
default. -/
theorem C6_wait_for_code_classification (st : Option String) (timeout : Option Rat)
    (settings : ClientSettings) :
    (∀ connect, connect ≠ ConnectOutcome.connected →
      ∀ reply, ∃ msg, wait_for_code st timeout settings connect reply
        = Except.error (ClientError.oauthConnectionError msg))
    ∧ (∃ msg, wait_for_code st timeout settings .connected .timedOut
        = Except.error (ClientError.oauthTimeoutError msg))
    ∧ wait_for_code st timeout settings .connected .closed
        = Except.error (ClientError.oauthRelayError
            "Coordinator closed connection without sending result")
    ∧ (∀ record msg, SocketMessage.from_jsonObj record = Except.ok msg →
        msg.type ≠ MessageType.DELIVER →
        wait_for_code st timeout settings .connected (.line record)
          = Except.error (ClientError.oauthRelayError
              ("Unexpected message type: " ++ msg.type.value)))
    ∧ (∀ record msg, SocketMessage.from_jsonObj record = Except.ok msg →
        msg.type = MessageType.DELIVER →
        wait_for_code st timeout settings .connected (.line record)
          = Except.ok { code := msg.code, raw := msg.raw })
    ∧ connectTimeoutSeconds = 10
    ∧ (∀ t : Rat, effectiveTimeout (some t) settings = t)
    ∧ effectiveTimeout none settings = settings.oauth_default_timeout := by
  refine ⟨?_, ⟨_, rfl⟩, rfl, ?_, ?_, rfl, fun t => rfl, rfl⟩
  · intro connect hne reply
    cases connect with
    | connected => exact absurd rfl hne
    | timedOut => exact ⟨_, rfl⟩
    | refused => exact ⟨_, rfl⟩
    | fileNotFound => exact ⟨_, rfl⟩
    | otherExc e => exact ⟨_, rfl⟩
  · intro record msg hok hne
    unfold wait_for_code
    dsimp only
    rw [hok]
    dsimp only
    rw [if_neg hne]
  · intro record msg hok heq
    unfold wait_for_code
    dsimp only
    rw [hok]
    dsimp only
    rw [if_pos heq]

/-- C6 witness: the classification applied at a concrete refused
connection and a concrete DELIVER reply. -/
theorem C6_wait_for_code_classification_witness :
    (∃ msg, wait_for_code (some "t") (some 5) clientSettingsEx .refused .timedOut
        = Except.error (ClientError.oauthConnectionError msg))
    ∧ wait_for_code (some "t") (some 5) clientSettingsEx .connected
        (.line [("type", PyVal.str "DELIVER"), ("code", PyVal.str "abc")])
      = Except.ok { code := some "abc", raw := none } := by
  have h := C6_wait_for_code_classification (some "t") (some 5) clientSettingsEx
  refine ⟨h.1 .refused (by intro hc; cases hc) .timedOut, ?_⟩
  exact h.2.2.2.2.1 [("type", PyVal.str "DELIVER"), ("code", PyVal.str "abc")]
    { type := .DELIVER, code := some "abc" } rfl rfl

/-- C7 counterexample: on the reachable state `coordExDel` — produced by a
registration for `"t"` followed by a successful `deliver_result` for `"t"`
whose handler has not yet resumed — the pending table still holds the
entry for `"t"`, and its future is already resolved. So the claimed
invariant "at every instant the table holds only currently-pending
(un-resolved, non-cancelled) entries" is false; the code itself expects
this state: a replayed delivery finds the entry, sees it done, and
returns `false` ("dropping replay"). -/
theorem C7_counterexample :
    (deliver_result coordExReg (some "t") (some "abc123") none).2 = true
    ∧ pendingOnlyLive coordExDel = false
    ∧ dictGet? coordExDel.pending "t" = some 0
    ∧ (deliver_result coordExDel (some "t") (some "x") none).2 = false := by
  decide

/-- C7 (amended): entries are removed from the pending table by the
handler's cleanup once its wait completes — not already at the instant of
resolution/cancellation, so the table may transiently hold a done entry
(which `deliver_result` refuses as already-delivered). The cleanup deletes
the entry only when it still holds the very future this handler inserted:
with a matching entry it removes exactly that key; with an entry replaced
by a later registration (different future identity), or no entry, it
leaves the table untouched; other keys are never affected. -/
theorem C7_cleanup_guard (s : CoordState) (key : String) (fid : Nat) :
    (dictGet? s.pending key = some fid →
      (cleanupEntry s key fid).pending = dictDel s.pending key
      ∧ dictGet? (cleanupEntry s key fid).pending key = none)
    ∧ (∀ fid', dictGet? s.pending key = some fid' → fid' ≠ fid →
        cleanupEntry s key fid = s)
    ∧ (dictGet? s.pending key = none → cleanupEntry s key fid = s)
    ∧ (∀ k', k' ≠ key →
        dictGet? (cleanupEntry s key fid).pending k' = dictGet? s.pending k') := by
  refine ⟨?_, ?_, ?_, ?_⟩
  · intro hget
    unfold cleanupEntry
    rw [if_pos hget]
    exact ⟨rfl, by rw [show ({ s with pending := dictDel s.pending key } : CoordState).pending
      = dictDel s.pending key from rfl, dictGet?_del, if_pos rfl]⟩
  · intro fid' hget hne
    unfold cleanupEntry
    rw [if_neg (by rw [hget]; intro hc; injection hc with hc'; exact hne hc')]
  · intro hget
    unfold cleanupEntry
    rw [if_neg (by rw [hget]; intro hc; cases hc)]
  · intro k' hk'
    unfold cleanupEntry
    by_cases hc : dictGet? s.pending key = some fid
    · rw [if_pos hc]
      rw [show ({ s with pending := dictDel s.pending key } : CoordState).pending
        = dictDel s.pending key from rfl, dictGet?_del, if_neg hk']
    · rw [if_neg hc]

/-- C7 witness: the amended cleanup contract applied to `coordExDel`:
cleanup with the matching future identity `0` removes the `"t"` entry;
cleanup with a stale identity `1` leaves the state untouched. -/
theorem C7_cleanup_guard_witness :
    dictGet? (cleanupEntry coordExDel "t" 0).pending "t" = none
    ∧ cleanupEntry coordExDel "t" 1 = coordExDel := by
  refine ⟨((C7_cleanup_guard coordExDel "t" 0).1 (by decide)).2, ?_⟩
  exact (C7_cleanup_guard coordExDel "t" 1).2.1 0 (by decide) (by decide)

theorem cancelAllPending_none (entries : PyDict Nat) (futures : List FutStatus) {i : Nat}
    (h : futures[i]? = none) : (cancelAllPending entries futures)[i]? = none := by
  rw [List.getElem?_eq_none_iff] at h ⊢
  rw [cancelAllPending_length]
  exact h

theorem cancelAllPending_noop (entries : PyDict Nat) :
    ∀ futures : List FutStatus,
      (∀ p ∈ entries, ∀ g, futures[p.2]? = some g → g.done = true) →
      cancelAllPending entries futures = futures := by
  induction entries with
  | nil => intro futures _; rfl
  | cons q rest ih =>
    intro futures h
    rw [cancelAllPending_cons]
    cases hq : futures[q.2]? with
    | none => exact ih futures (fun p hp g hg => h p (by simp [hp]) g hg)
    | some g =>
      cases g with
      | pending =>
        have := h q (by simp) .pending hq
        simp [FutStatus.done] at this
      | resolved msg => exact ih futures (fun p hp g hg => h p (by simp [hp]) g hg)
      | cancelled => exact ih futures (fun p hp g hg => h p (by simp [hp]) g hg)

theorem stop_futures_done (s : CoordState) :
    ∀ p ∈ s.pending, ∀ g, s.stop.futures[p.2]? = some g → g.done = true := by
  intro p hp g hg
  have hgs : (cancelAllPending s.pending s.futures)[p.2]? = some g := hg
  cases hq : s.futures[p.2]? with
  | none =>
    rw [cancelAllPending_none s.pending s.futures hq] at hgs
    cases hgs
  | some f =>
    cases f with
    | pending =>
      have hmem : (p.1, p.2) ∈ s.pending := by rw [Prod.mk.eta]; exact hp
      have := cancelAllPending_cancels s.pending s.futures p.1 p.2 hmem hq
      rw [this] at hgs
      injection hgs with h'
      rw [← h']
      rfl
    | resolved msg =>
      have := cancelAllPending_done s.pending s.futures p.2 _ hq rfl
      rw [this] at hgs
      injection hgs with h'
      rw [← h']
      rfl
    | cancelled =>
      have := cancelAllPending_done s.pending s.futures p.2 _ hq rfl
      rw [this] at hgs
      injection hgs with h'
      rw [← h']
      rfl

theorem entryDead_stop (s : CoordState) (key : String) :
    entryDeadFor s.stop key = true := by
  unfold entryDeadFor
  cases hg : dictGet? s.stop.pending key with
  | none => rfl
  | some fid =>
    dsimp only
    cases hf : s.stop.futures[fid]? with
    | none => rfl
    | some g =>
      have hg' : dictGet? s.pending key = some fid := hg
      exact stop_futures_done s (key, fid) (mem_of_dictGet?_eq_some hg') g hf

theorem stop_stop (s : CoordState) : s.stop.stop = s.stop := by
  have hfut : cancelAllPending s.pending (cancelAllPending s.pending s.futures)
      = cancelAllPending s.pending s.futures :=
    cancelAllPending_noop s.pending _ (stop_futures_done s)
  obtain ⟨fut, pend, so, sfe, tcp⟩ := s
  simp only [CoordState.stop] at hfut ⊢
  rw [hfut]
  cases tcp <;> simp

/-- C8: `stop()` cancels every still-pending entry reachable from the
pending table (and those futures stay cancelled under any further sequence
of operations, so none can ever resolve with a delivered value); after
`stop()` every `deliver_result` call, for every token, returns `false`;
the listening transport is closed; the socket file is removed exactly for
the path-addressed (non-TCP) transport kind; `stop()` is idempotent; and
it is safe (a no-op) on a coordinator that was never started. -/
theorem C8_stop_contract (s : CoordState) :
    (∀ key fid, dictGet? s.pending key = some fid →
        s.futures[fid]? = some FutStatus.pending →
        s.stop.futures[fid]? = some FutStatus.cancelled)
    ∧ (∀ st c : Option String, ∀ r : Option (PyDict PyVal),
        (deliver_result s.stop st c r).2 = false)
    ∧ (∀ fid : Nat, ∀ ops : List CoordOp,
        s.stop.futures[fid]? = some FutStatus.cancelled →
        (s.stop.run ops).futures[fid]? = some FutStatus.cancelled)
    ∧ s.stop.serverOpen = false
    ∧ (s.use_tcp = false → s.stop.socketFileExists = false)
    ∧ (s.use_tcp = true → s.stop.socketFileExists = s.socketFileExists)
    ∧ s.stop.stop = s.stop
    ∧ (∀ b, (initState b).stop = initState b) := by
  refine ⟨?_, ?_, ?_, rfl, ?_, ?_, stop_stop s, ?_⟩
  · intro key fid hget hpend
    exact cancelAllPending_cancels s.pending s.futures key fid
      (mem_of_dictGet?_eq_some hget) hpend
  · intro st c r
    rw [deliver_result_dead s.stop st c r (entryDead_stop s _)]
  · intro fid ops hc
    exact cancelled_run s.stop ops hc
  · intro h
    show (if s.use_tcp then s.socketFileExists else false) = false
    rw [h]
    rfl
  · intro h
    show (if s.use_tcp then s.socketFileExists else false) = s.socketFileExists
    rw [h]
    rfl
  · intro b
    cases b <;> rfl

/-- C8 witness: stopping the coordinator with one live registration for
`"t"` cancels its future, and a later delivery for `"t"` returns `false`. -/
theorem C8_stop_contract_witness :
    coordExReg.stop.futures[0]? = some FutStatus.cancelled
    ∧ (deliver_result coordExReg.stop (some "t") (some "c") none).2 = false := by
  have h := C8_stop_contract coordExReg
  exact ⟨h.1 "t" 0 (by decide) (by rfl), h.2.1 (some "t") (some "c") none⟩

/-- C9 counterexample: with the connection established, a reply line whose
tag is the unknown `"BOGUS"` makes `wait_for_code` surface the `ValueError`
raised inside `SocketMessage.from_json` — an exception that is NOT an
`OAuthRelayError` or any subclass of it (`from_json`'s exceptions are not
caught anywhere in `wait_for_code`), refuting the claim that every
post-connection failure is surfaced as a typed relay error. -/
theorem C9_counterexample :
    wait_for_code (some "t") none clientSettingsEx .connected
        (.line [("type", PyVal.str "BOGUS")])
      = Except.error (ClientError.pyExc
          (PyError.valueError "'BOGUS' is not a valid MessageType"))
    ∧ ClientError.isTypedRelayError
        (ClientError.pyExc (PyError.valueError "'BOGUS' is not a valid MessageType"))
      = false :=
  ⟨rfl, rfl⟩

/-- C9 (amended): after a connection is established, a reply-phase timeout,
EOF, and a well-formed non-DELIVER reply are surfaced as typed relay
errors, and a success is never partial — it arises only from a DELIVER
reply and carries exactly that reply's code and raw fields. But a reply
line that is not well-formed is the exception: an unparsable body
propagates `json.JSONDecodeError` and an unknown tag (or other decode
failure) propagates the decode exception itself, both of which are not
typed relay errors, since `wait_for_code` does not catch what
`SocketMessage.from_json` raises. -/
theorem C9_typed_error_surface (st : Option String) (timeout : Option Rat)
    (settings : ClientSettings) :
    (∀ msg, wait_for_code st timeout settings .connected .timedOut
        = Except.error msg → msg.isTypedRelayError = true)
    ∧ (∀ msg, wait_for_code st timeout settings .connected .closed
        = Except.error msg → msg.isTypedRelayError = true)
    ∧ (∀ record m msg, SocketMessage.from_jsonObj record = Except.ok m →
        wait_for_code st timeout settings .connected (.line record) = Except.error msg →
        msg.isTypedRelayError = true)
    ∧ (∀ record e, SocketMessage.from_jsonObj record = Except.error e →
        wait_for_code st timeout settings .connected (.line record)
          = Except.error (ClientError.pyExc e)
        ∧ (ClientError.pyExc e).isTypedRelayError = false)
    ∧ (∀ e, wait_for_code st timeout settings .connected (.unparsable e)
          = Except.error (ClientError.pyExc (PyError.jsonDecodeError e))
        ∧ (ClientError.pyExc (PyError.jsonDecodeError e)).isTypedRelayError = false)
    ∧ (∀ connect reply res,
        wait_for_code st timeout settings connect reply = Except.ok res →
        connect = ConnectOutcome.connected
        ∧ ∃ record m, reply = ReplyOutcome.line record
            ∧ SocketMessage.from_jsonObj record = Except.ok m
            ∧ m.type = MessageType.DELIVER
            ∧ res = { code := m.code, raw := m.raw }) := by
  refine ⟨?_, ?_, ?_, ?_, ?_, ?_⟩
  · intro msg h
    injection h with h'
    rw [← h']
    rfl
  · intro msg h
    injection h with h'
    rw [← h']
    rfl
  · intro record m msg hok herr
    unfold wait_for_code at herr
    dsimp only at herr
    rw [hok] at herr
    dsimp only at herr
    by_cases hd : m.type = MessageType.DELIVER
    · rw [if_pos hd] at herr
      cases herr
    · rw [if_neg hd] at herr
      injection herr with h'
      rw [← h']
      rfl
  · intro record e herr
    constructor
    · unfold wait_for_code
      dsimp only
      rw [herr]
    · rfl
  · intro e
    exact ⟨rfl, rfl⟩
  · intro connect reply res hok
    cases connect with
    | timedOut => cases hok
    | refused => cases hok
    | fileNotFound => cases hok
    | otherExc e => cases hok
    | connected =>
      refine ⟨rfl, ?_⟩
      cases reply with
      | timedOut => cases hok
      | closed => cases hok
      | unparsable e => cases hok
      | line record =>
        refine ⟨record, ?_⟩
        unfold wait_for_code at hok
        dsimp only at hok
        cases hm : SocketMessage.from_jsonObj record with
        | error e =>
          rw [hm] at hok
          cases hok
        | ok m =>
          rw [hm] at hok
          dsimp only at hok
          by_cases hd : m.type = MessageType.DELIVER
          · rw [if_pos hd] at hok
            injection hok with h'
            exact ⟨m, rfl, rfl, hd, h'.symm⟩
          · rw [if_neg hd] at hok
            cases hok

/-- C9 witness: the amended contract at concrete inputs — a non-DELIVER
(ERROR-tagged) reply surfaces as a typed relay error; a reply with an
unknown tag surfaces as the untyped decode exception. -/
theorem C9_typed_error_surface_witness :
    (∀ msg, wait_for_code (some "t") none clientSettingsEx .connected
        (.line [("type", PyVal.str "ERROR")]) = Except.error msg →
      msg.isTypedRelayError = true)
    ∧ wait_for_code (some "t") none clientSettingsEx .connected
        (.line [("type", PyVal.str "NONSENSE")])
      = Except.error (ClientError.pyExc
          (PyError.valueError "'NONSENSE' is not a valid MessageType")) := by
  have h := C9_typed_error_surface (some "t") none clientSettingsEx
  refine ⟨fun msg herr => h.2.2.1 [("type", PyVal.str "ERROR")]
    { type := MessageType.ERROR } msg rfl herr, ?_⟩
  exact (h.2.2.2.1 [("type", PyVal.str "NONSENSE")]
    (PyError.valueError "'NONSENSE' is not a valid MessageType") rfl).1

/-- C10: token normalization `state or "__default__"` maps both an absent
token and the empty-string token to the reserved `"__default__"` slot (and
leaves every non-empty token unchanged); consequently, on any well-formed
coordinator state, a waiter registered with the empty-string token is
matched by a delivery carrying an absent token, and vice versa. -/
theorem C10_default_slot (s : CoordState) (hwf : s.wfB = true) (c : Option String)
    (r : Option (PyDict PyVal)) :
    normalizeState none = "__default__"
    ∧ normalizeState (some "") = "__default__"
    ∧ (∀ t : String, t ≠ "" → normalizeState (some t) = t)
    ∧ (deliver_result (register s (some "")).1 none c r).2 = true
    ∧ (deliver_result (register s none).1 (some "") c r).2 = true := by
  refine ⟨rfl, rfl, ?_, ?_, ?_⟩
  · intro t ht
    show (if t == "" then "__default__" else t) = t
    rw [if_neg (by simpa using ht)]
  · have hdead := entryDead_after_register s (some "") hwf
    have hdead' : entryDeadFor (register s (some "")).1 (normalizeState none) = false := hdead
    obtain ⟨fid, _, _, heq⟩ := deliver_result_live (register s (some "")).1 none c r hdead'
    rw [heq]
  · have hdead := entryDead_after_register s none hwf
    have hdead' : entryDeadFor (register s none).1 (normalizeState (some "")) = false := hdead
    obtain ⟨fid, _, _, heq⟩ := deliver_result_live (register s none).1 (some "") c r hdead'
    rw [heq]

/-- C10 witness: on the fresh coordinator, a registration with the
empty-string token is resolved by a delivery with the absent token, and
vice versa. -/
theorem C10_default_slot_witness :
    (deliver_result (register (initState false) (some "")).1 none (some "c") none).2 = true
    ∧ (deliver_result (register (initState false) none).1 (some "") (some "c") none).2
        = true := by
  have h := C10_default_slot (initState false) (by decide) (some "c") none
  exact ⟨h.2.2.2.1, h.2.2.2.2⟩

/-- C3 witness: the refinement applied at the concrete case-insensitivity
payload and the tested empty-value boundary. -/
theorem C3_extract_code_refines_witness :
    extract_code [("CODE", PyVal.str "X")] ["code", "authorization_code"]
      = extractSpec [("CODE", PyVal.str "X")] ["code", "authorization_code"]
    ∧ extract_code [("authorization_code", PyVal.str "A"), ("code", PyVal.str "")]
        ["code", "authorization_code"] = none :=
  ⟨(C3_extract_code_refines [("CODE", PyVal.str "X")] ["code", "authorization_code"]).1,
    (C3_extract_code_refines [] []).2⟩

/-- C4 witness: the round trip applied at a concrete DELIVER message with
a present state and code and an absent raw and error. -/
theorem C4_roundtrip_and_framing_witness :
    SocketMessage.from_jsonObj (SocketMessage.to_jsonObj
        { type := MessageType.DELIVER, state := some "t", code := some "c" })
      = Except.ok { type := MessageType.DELIVER, state := some "t", code := some "c" }
    ∧ ((SocketMessage.to_jsonObj
        { type := MessageType.DELIVER, state := some "t", code := some "c" }).map
          Prod.fst).contains "raw" = false :=
  ⟨(C4_roundtrip_and_framing
      { type := MessageType.DELIVER, state := some "t", code := some "c" }).1,
    (C4_roundtrip_and_framing
      { type := MessageType.DELIVER, state := some "t", code := some "c" }).2.2.2.2.2.1⟩
